import Mathlib

/-!
Verification of the ATSR peer-evaluation form (atrs_form_app.py).

The development shallowly embeds the data model and the pure logic of the
source file: the roster constants, the submission handler of
pagina_avaliador, the CSV record layout, the aggregation consolidar_atrs,
the per-subgroup and global rankings of pagina_organizador, and the
export dispatch baixar_arquivo_bytes.

Modelling choices, each noted again at the relevant definition:
* Scores and means are rationals.  Every score is a multiple of 0.5 and
  every stored mean a multiple of 0.01, all exactly representable as
  binary doubles, and sums, comparisons and 2-decimal roundings of such
  values are exact in IEEE double arithmetic, so the rational model
  agrees with the float computations of the source at every value the
  program produces or compares.
* String comparison (used by pandas sort_values on object columns, which
  compares Python strings) is code-point lexicographic; lexLtB below
  implements exactly that order.
* pandas sort_values on a single key with ascending=False
  (pandas.core.sorting.nargsort) reverses the non-NaN rows, takes an
  ascending argsort, reverses the result again, and appends the NaN
  positions last; with a stable argsort the double reversal makes the
  descending sort stable, so tied rows keep their input order.  For a
  list of at most 16 rows - a subgroup has 4 members - the quicksort
  kind of numpy argsort is an insertion sort and hence stable, so the
  whole is exactly a stable insertion sort under the descending key
  order, NaN rows last; ordenaDesc mirrors that.
* sort_values on several keys uses a stable lexicographic sort with
  descending keys inverted and NaN keys placed last
  (pandas.core.sorting.lexsort_indexer); rankingGeral mirrors that with
  a stable insertion sort under the total preorder geralOrdem.
-/

/-! ### Code-point lexicographic string order

Python compares strings lexicographically by code point; pandas object
columns inherit that order.  lexLtB is that strict order on the char
lists underlying Lean strings. -/

def lexLtB : List Char → List Char → Bool
  | _, [] => false
  | [], _ :: _ => true
  | a :: as, b :: bs =>
    if a < b then true
    else if b < a then false
    else lexLtB as bs

/-- Strict code-point order on strings, the order Python uses for `<` on
str values and hence the order pandas applies to object columns. -/
def sLt (s t : String) : Prop := lexLtB s.data t.data = true

/-- Weak code-point order on strings: t is not strictly below s. -/
def sLe (s t : String) : Prop := lexLtB t.data s.data = false

instance (s t : String) : Decidable (sLt s t) := by
  unfold sLt; infer_instance

instance (s t : String) : Decidable (sLe s t) := by
  unfold sLe; infer_instance

/-- Lexicographic order on a (subgroup, name) key pair, ascending in both
components: the tie-break order of the global ranking. -/
def chaveLex (s1 n1 s2 n2 : String) : Prop :=
  sLt s1 s2 ∨ (s1 = s2 ∧ sLe n1 n2)

instance (s1 n1 s2 n2 : String) : Decidable (chaveLex s1 n1 s2 n2) := by
  unfold chaveLex; infer_instance

/-! ### Roster configuration (the compiled-in constants of the source) -/

def CRITERIOS : List String :=
  ["Comunicação",
   "Eficiência durante o processo",
   "Participação e presença",
   "Processo criativo e insights",
   "Responsabilidade e precedência"]

def SUBGRUPOS : List (String × List String) :=
  [("Subgrupo 01", ["Artur Prazeres", "Filipe Correia", "Thiago Carvalho", "Walter Maia"]),
   ("Subgrupo 02", ["João Carlos", "João Patriota", "João Pessôa", "Mateus Dornellas"]),
   ("Subgrupo 03", ["Antônio Manoel", "Breno Santiago", "Gabriel Ribeiro", "João Henrique"])]

def TODOS_NOMES : List String := (SUBGRUPOS.map Prod.snd).flatten

def SENHA_ORGANIZADOR : String := "organizador"

/-- Roster lookup of the source: first subgroup whose member list contains
the name, None if the name is unmapped. -/
def get_subgrupo_do_nome (nome : String) : Option String :=
  (SUBGRUPOS.find? (fun p => decide (nome ∈ p.2))).map Prod.fst

/-- Member list of a subgroup, the indexing SUBGRUPOS[subgrupo] of the
source (total here via a default, only applied to keys of the roster). -/
def membros (sg : String) : List String := (SUBGRUPOS.lookup sg).getD []

/-! ### Submission records and the submit handler of pagina_avaliador -/

/-- One CSV data row as written by salvar_linha_csv: timestamp, evaluator
name, evaluator subgroup, evaluated name, the five criterion scores, and
the mean formatted with two decimals. -/
structure Linha where
  timestamp : String
  avaliador_nome : String
  avaliador_subgrupo : String
  avaliado_nome : String
  notas : List ℚ
  media_5_criterios : String
deriving DecidableEq

/-- Round to the nearest integer, ties to even: the rounding used by the
Python format spec .2f, round() and numpy round, applied here to exact
rationals (all values the program rounds are exact binary fractions, so
the rational result matches the float result). -/
def rhe (q : ℚ) : ℤ :=
  if q - ⌊q⌋ < 1/2 then ⌊q⌋
  else if 1/2 < q - ⌊q⌋ then ⌊q⌋ + 1
  else if ⌊q⌋ % 2 = 0 then ⌊q⌋ else ⌊q⌋ + 1

/-- Rounding to 2 decimal places, as in round(x, 2) and Series.round(2). -/
def round2 (q : ℚ) : ℚ := (rhe (q * 100) : ℚ) / 100

/-- Rendering of the format string {media:.2f} for the nonnegative means
the form produces: the value rounded to 2 decimals, printed with exactly
two decimal digits. -/
def format2 (q : ℚ) : String :=
  toString ((rhe (q * 100)).toNat / 100) ++ "." ++
    (if (rhe (q * 100)).toNat % 100 < 10 then "0" ++ toString ((rhe (q * 100)).toNat % 100)
     else toString ((rhe (q * 100)).toNat % 100))

/-- Mean of a score dict, sum(notas.values()) / len(notas) of the source. -/
def mediaQ (notas : List ℚ) : ℚ := notas.sum / notas.length

/-- The string stored in the media_5_criterios field of a written row. -/
def mediaRegistrada (notas : List ℚ) : String := format2 (mediaQ notas)

/-- User-visible outcome of a submit attempt. -/
inductive ResultadoEnvio where
  | sucesso
  | avisoIncompleto
  | nomeNaoMapeado
deriving DecidableEq

/-- The rows appended by the submit loop: one row per colleague of the
evaluator in roster order, all sharing the one timestamp taken before the
loop. -/
def linhasEnviadas (avaliador subgrupo ts : String)
    (avaliacoes : List (String × List ℚ)) : List Linha :=
  ((membros subgrupo).filter (fun n => decide (n ≠ avaliador))).map (fun colega =>
    let notas := (avaliacoes.lookup colega).getD []
    { timestamp := ts, avaliador_nome := avaliador, avaliador_subgrupo := subgrupo,
      avaliado_nome := colega, notas := notas, media_5_criterios := mediaRegistrada notas })

/-- The submit handler of pagina_avaliador: resolve the subgroup, compute
the colleague list (same subgroup, self excluded), refuse when any
colleague is missing from the session dict, otherwise append one row per
colleague to the store.  The store is the list of data rows of
respostas_ATSR.csv; avaliacoes is the session dict keyed by evaluated
name; ts is the timestamp taken once at submit time. -/
def enviar (store : List Linha) (avaliador ts : String)
    (avaliacoes : List (String × List ℚ)) : List Linha × ResultadoEnvio :=
  match get_subgrupo_do_nome avaliador with
  | none => (store, ResultadoEnvio.nomeNaoMapeado)
  | some subgrupo =>
    let colegas := (membros subgrupo).filter (fun n => decide (n ≠ avaliador))
    let faltando := colegas.filter (fun c => (avaliacoes.lookup c).isNone)
    if faltando.isEmpty then
      (store ++ linhasEnviadas avaliador subgrupo ts avaliacoes, ResultadoEnvio.sucesso)
    else (store, ResultadoEnvio.avisoIncompleto)

/-! ### The record table read back by the organizer view -/

/-- One cell of the media_5_criterios column as read back from the CSV:
a numeric value, a float NaN, or a cell that pd.to_numeric cannot parse
(a numeric-looking string is subsumed by the numero case, since read_csv
and to_numeric give it the same numeric value). -/
inductive Cell where
  | numero (q : ℚ)
  | nan
  | texto (s : String)
deriving DecidableEq

/-- pd.to_numeric with errors=coerce on one cell: parse failures become
NaN, numbers and NaN pass through. -/
def to_numeric (c : Cell) : Cell :=
  match c with
  | Cell.numero q => Cell.numero q
  | Cell.nan => Cell.nan
  | Cell.texto _ => Cell.nan

/-- Numeric view of a cell; NaN and unparsed cells are missing, which is
exactly what the pandas mean aggregation skips. -/
def valorNum (c : Cell) : Option ℚ :=
  match c with
  | Cell.numero q => some q
  | Cell.nan => none
  | Cell.texto _ => none

/-- One row of the dataframe read from the store: same columns as Linha,
with the five criterion cells and the mean cell in their parsed form. -/
structure Row where
  timestamp : String
  avaliador_nome : String
  avaliador_subgrupo : String
  avaliado_nome : String
  criterios : List Cell
  media_5_criterios : Cell
deriving DecidableEq

/-- The dataframe after the in-place column assignment of line 165 of the
source: the media_5_criterios column coerced to numeric, all other
columns untouched. -/
def df_apos_consolidar (df : List Row) : List Row :=
  df.map (fun r => { r with media_5_criterios := to_numeric r.media_5_criterios })

/-- Group keys of df.groupby(avaliado_nome): the distinct evaluated
names, sorted ascending (groupby sorts keys by default). -/
def chaves (df : List Row) : List String :=
  List.insertionSort sLe ((df.map (fun r => r.avaliado_nome)).dedup)

/-- One row of the consolidated table: subgroup, member, composite score.
ATSR none models a float NaN (a person none of whose stored means
survived numeric coercion). -/
structure Resumo where
  Subgrupo : String
  Integrante : String
  ATSR : Option ℚ
deriving DecidableEq

/-- Reverse roster lookup of the aggregation, next(...) with default: the
subgroup of an evaluated name, or the em-dash sentinel when unmapped. -/
def subgrupo_avaliado (nome : String) : String :=
  ((SUBGRUPOS.find? (fun p => decide (nome ∈ p.2))).map Prod.fst).getD "—"

/-- The coerced mean values of one evaluated person: the media column of
the person's rows after coercion, with NaN (and hence every cell that
failed coercion) excluded - excluded entirely, not treated as zero. -/
def valoresValidos (df : List Row) (nome : String) : List ℚ :=
  ((df_apos_consolidar df).filter (fun r => decide (r.avaliado_nome = nome))).filterMap
    (fun r => valorNum r.media_5_criterios)

/-- The groupby mean of one person's coerced means: arithmetic mean of
the surviving values, NaN (none) when no value survives, exactly the
skipna mean of pandas. -/
def mediaGrupo (df : List Row) (nome : String) : Option ℚ :=
  let vs := valoresValidos df nome
  if vs.isEmpty then none else some (vs.sum / vs.length)

/-- consolidar_atrs of the source.  It both overwrites the media column
of the caller's dataframe (first component, the in-place
pd.to_numeric assignment) and returns the consolidated table (second
component): per evaluated name the subgroup, the name, and the mean of
the coerced means rounded to 2 decimals. -/
def consolidar_atrs (df : List Row) : List Row × List Resumo :=
  (df_apos_consolidar df,
    (chaves (df_apos_consolidar df)).map (fun nome =>
      { Subgrupo := subgrupo_avaliado nome, Integrante := nome,
        ATSR := (mediaGrupo df nome).map round2 }))

/-- The consolidated table the organizer view works with. -/
def consolidar (df : List Row) : List Resumo := (consolidar_atrs df).2

/-- carregar_dataframe: None when the store file does not exist, the
parsed rows otherwise. -/
def carregar_dataframe (arquivo : Option (List Row)) : Option (List Row) :=
  match arquivo with
  | none => none
  | some linhas => some linhas

/-- What the organizer view renders: the password prompt, the
informational no-responses message, or the consolidated panel. -/
inductive TelaOrganizador where
  | pedeSenha
  | semRespostas
  | painel (resumo : List Resumo)
deriving DecidableEq

/-- pagina_organizador: password gate, then the empty-store check
(df is None or df.empty), then the consolidated panel. -/
def pagina_organizador (senha : String) (arquivo : Option (List Row)) : TelaOrganizador :=
  if senha ≠ SENHA_ORGANIZADOR then TelaOrganizador.pedeSenha
  else
    match carregar_dataframe arquivo with
    | none => TelaOrganizador.semRespostas
    | some df =>
      if df.isEmpty then TelaOrganizador.semRespostas
      else TelaOrganizador.painel (consolidar df)

/-- baixar_arquivo_bytes: dispatch on the format string.  The two
serializations themselves are pandas and openpyxl calls, external to the
source, so they are parameters here; only the dispatch and the empty
fallback are logic of the source. -/
def baixar_arquivo_bytes (to_csv to_xlsx : List Resumo → List ℕ)
    (df : List Resumo) (formato : String) : List ℕ :=
  if formato = "csv" then to_csv df
  else if formato = "xlsx" then to_xlsx df
  else []

/-! ### The two rankings of the organizer view -/

/-- Sort key of a consolidated row in the per-subgroup sort; only applied
to rows whose ATSR is a number. -/
def qv (r : Resumo) : ℚ := r.ATSR.getD 0

/-- Descending comparison on the ATSR key, the row order of
sort_values(ATSR, ascending=False) between non-NaN rows. -/
def descATSR (a b : Resumo) : Prop := qv b ≤ qv a

instance : DecidableRel descATSR := fun a b => inferInstanceAs (Decidable (qv b ≤ qv a))

instance : IsTotal Resumo descATSR := ⟨fun a b => le_total (qv b) (qv a)⟩

instance : IsTrans Resumo descATSR := ⟨fun _ _ _ h1 h2 => le_trans h2 h1⟩

/-- sub.sort_values(ATSR, ascending=False) as pandas computes it
(pandas.core.sorting.nargsort): the non-NaN rows are reversed, argsorted
ascending, and the indexer reversed again, then the NaN rows are
appended last.  With the stable argsort that small inputs get (numpy
quicksort is an insertion sort below 16 elements) the double reversal
yields exactly the stable descending sort of the non-NaN rows, which is
insertionSort under descATSR. -/
def ordenaDesc (linhas : List Resumo) : List Resumo :=
  List.insertionSort descATSR (linhas.filter (fun r => r.ATSR.isSome))
    ++ linhas.filter (fun r => r.ATSR.isNone)

/-- The ranked table shown for one subgroup: the consolidated rows of
that subgroup, sorted descending by ATSR. -/
def rankingSubgrupo (sg : String) (resumo : List Resumo) : List Resumo :=
  ordenaDesc (resumo.filter (fun r => decide (r.Subgrupo = sg)))

/-- Pairwise order of the per-subgroup ranking: composite scores
descending, NaN rows last. -/
def ordemDesc (a b : Resumo) : Prop :=
  match a.ATSR, b.ATSR with
  | some x, some y => y ≤ x
  | some _, none => True
  | none, some _ => False
  | none, none => True

instance (a b : Resumo) : Decidable (ordemDesc a b) := by
  unfold ordemDesc
  rcases a.ATSR with _ | x <;> rcases b.ATSR with _ | y <;> exact inferInstance

/-- Row order of the global ranking
sort_values([ATSR, Subgrupo, Integrante], ascending=[False, True, True]):
composite score descending, ties ascending by subgroup then by member
name, NaN composite scores last (na_position=last), NaN ties ordered by
the remaining keys. -/
def geralOrdem (a b : Resumo) : Prop :=
  match a.ATSR, b.ATSR with
  | some x, some y =>
    y < x ∨ (x = y ∧ chaveLex a.Subgrupo a.Integrante b.Subgrupo b.Integrante)
  | some _, none => True
  | none, some _ => False
  | none, none => chaveLex a.Subgrupo a.Integrante b.Subgrupo b.Integrante

/-- Boolean mirror of geralOrdem, so that the order is executable. -/
def geralOrdemB (a b : Resumo) : Bool :=
  match a.ATSR, b.ATSR with
  | some x, some y =>
    decide (y < x) ||
      (decide (x = y) && decide (chaveLex a.Subgrupo a.Integrante b.Subgrupo b.Integrante))
  | some _, none => true
  | none, some _ => false
  | none, none => decide (chaveLex a.Subgrupo a.Integrante b.Subgrupo b.Integrante)

instance (a b : Resumo) : Decidable (geralOrdem a b) :=
  decidable_of_iff (geralOrdemB a b = true) (by
    unfold geralOrdemB geralOrdem
    rcases a.ATSR with _ | x <;> rcases b.ATSR with _ | y <;> simp)

/-- The sorted global ranking (line 228 of the source).  The pandas
multi-key sort is a stable lexicographic sort, which for the total
preorder geralOrdem is exactly insertionSort. -/
def rankingGeral (resumo : List Resumo) : List Resumo :=
  List.insertionSort geralOrdem resumo

/-- The displayed global ranking, with the index shifted to start at 1
(geral.index = geral.index + 1). -/
def rankingGeralExibido (resumo : List Resumo) : List (ℕ × Resumo) :=
  (rankingGeral resumo).enum.map (fun p => (p.1 + 1, p.2))

/-- Example store: three stored means for one person, one of which fails
numeric coercion. -/
def dfExemploC4 : List Row :=
  [⟨"t1", "Filipe Correia", "Subgrupo 01", "Artur Prazeres", [], Cell.numero 7⟩,
   ⟨"t2", "Thiago Carvalho", "Subgrupo 01", "Artur Prazeres", [], Cell.texto "abc"⟩,
   ⟨"t3", "Walter Maia", "Subgrupo 01", "Artur Prazeres", [], Cell.numero 8⟩]

/-! ### Order lemmas for the embedded string and ranking orders -/

theorem lexLtB_nil_right (as : List Char) : lexLtB as [] = false := by
  cases as <;> rfl

theorem lexLtB_asymm : ∀ as bs, lexLtB as bs = true → lexLtB bs as = false := by
  intro as
  induction as with
  | nil => intro bs _; exact lexLtB_nil_right bs
  | cons a as ih =>
    intro bs h
    cases bs with
    | nil => simp [lexLtB] at h
    | cons b bs =>
      simp only [lexLtB] at h ⊢
      by_cases hab : a < b
      · have hba : ¬ b < a := lt_asymm hab
        simp [hab, hba]
      · by_cases hba : b < a
        · simp [hab, hba] at h
        · simp [hab, hba] at h ⊢
          exact ih bs h

theorem lexLtB_eq_of_not : ∀ as bs, lexLtB as bs = false → lexLtB bs as = false → as = bs := by
  intro as
  induction as with
  | nil =>
    intro bs h1 _
    cases bs with
    | nil => rfl
    | cons b bs => simp [lexLtB] at h1
  | cons a as ih =>
    intro bs h1 h2
    cases bs with
    | nil => simp [lexLtB] at h2
    | cons b bs =>
      simp only [lexLtB] at h1 h2
      by_cases hab : a < b
      · simp [hab] at h1
      · by_cases hba : b < a
        · simp [hba] at h2
        · have he : a = b := le_antisymm (not_lt.mp hba) (not_lt.mp hab)
          subst he
          simp [hab, hba] at h1 h2
          rw [ih bs h1 h2]

theorem lexLtB_trans : ∀ as bs cs, lexLtB as bs = true → lexLtB bs cs = true →
    lexLtB as cs = true := by
  intro as
  induction as with
  | nil =>
    intro bs cs h1 h2
    cases cs with
    | nil => rw [lexLtB_nil_right] at h2; exact absurd h2 (by simp)
    | cons c cs => rfl
  | cons a as ih =>
    intro bs cs h1 h2
    cases bs with
    | nil => simp [lexLtB] at h1
    | cons b bs =>
      cases cs with
      | nil => rw [lexLtB_nil_right] at h2; exact absurd h2 (by simp)
      | cons c cs =>
        simp only [lexLtB] at h1 h2 ⊢
        by_cases hab : a < b
        · by_cases hbc : b < c
          · simp [lt_trans hab hbc]
          · by_cases hcb : c < b
            · simp [hbc, hcb] at h2
            · have he : b = c := le_antisymm (not_lt.mp hcb) (not_lt.mp hbc)
              subst he
              simp [hab]
        · by_cases hba : b < a
          · simp [hab, hba] at h1
          · have he : a = b := le_antisymm (not_lt.mp hba) (not_lt.mp hab)
            subst he
            simp [hab] at h1
            by_cases hbc : a < c
            · simp [hbc]
            · by_cases hcb : c < a
              · simp [hbc, hcb] at h2
              · simp [hbc, hcb] at h2 ⊢
                exact ih bs cs h1 h2

theorem lexLtB_true_or : ∀ as bs cs, lexLtB as cs = true →
    lexLtB as bs = true ∨ lexLtB bs cs = true := by
  intro as
  induction as with
  | nil =>
    intro bs cs h
    cases cs with
    | nil => rw [lexLtB_nil_right] at h; exact absurd h (by simp)
    | cons c cs =>
      cases bs with
      | nil => exact Or.inr rfl
      | cons b bs => exact Or.inl rfl
  | cons a as ih =>
    intro bs cs h
    cases cs with
    | nil => rw [lexLtB_nil_right] at h; exact absurd h (by simp)
    | cons c cs =>
      cases bs with
      | nil => exact Or.inr rfl
      | cons b bs =>
        simp only [lexLtB] at h ⊢
        by_cases hac : a < c
        · rcases lt_trichotomy a b with hab | hab | hab
          · left; simp [hab]
          · right; subst hab; simp [hac]
          · right; simp [lt_trans hab hac]
        · by_cases hca : c < a
          · simp [hac, hca] at h
          · have he : a = c := le_antisymm (not_lt.mp hca) (not_lt.mp hac)
            subst he
            simp [hac] at h
            rcases lt_trichotomy a b with hab | hab | hab
            · left; simp [hab]
            · subst hab
              simp [hac]
              exact ih bs cs h
            · right; simp [hab]

theorem sLt_trans {s t u : String} (h1 : sLt s t) (h2 : sLt t u) : sLt s u :=
  lexLtB_trans _ _ _ h1 h2

theorem sLe_trans {s t u : String} (h1 : sLe s t) (h2 : sLe t u) : sLe s u := by
  unfold sLe at h1 h2 ⊢
  cases hus : lexLtB u.data s.data with
  | false => rfl
  | true =>
    rcases lexLtB_true_or u.data t.data s.data hus with h | h
    · rw [h2] at h; exact absurd h (by simp)
    · rw [h1] at h; exact absurd h (by simp)

theorem string_eq_of_data_eq {s t : String} (h : s.data = t.data) : s = t := by
  cases s; cases t; simp_all

theorem sLt_or_eq_or_sLt (s t : String) : sLt s t ∨ s = t ∨ sLt t s := by
  unfold sLt
  cases h1 : lexLtB s.data t.data with
  | true => exact Or.inl rfl
  | false =>
    cases h2 : lexLtB t.data s.data with
    | true => exact Or.inr (Or.inr rfl)
    | false =>
      exact Or.inr (Or.inl (string_eq_of_data_eq (lexLtB_eq_of_not _ _ h1 h2)))

theorem sLe_total (s t : String) : sLe s t ∨ sLe t s := by
  unfold sLe
  cases h : lexLtB t.data s.data with
  | false => exact Or.inl rfl
  | true => exact Or.inr (lexLtB_asymm _ _ h)

theorem sLe_of_sLt {s t : String} (h : sLt s t) : sLe s t :=
  lexLtB_asymm _ _ h

theorem sLe_refl (s : String) : sLe s s := by
  unfold sLe
  cases h : lexLtB s.data s.data with
  | false => rfl
  | true =>
    have h2 := lexLtB_asymm _ _ h
    rw [h] at h2
    exact h2

theorem sLt_of_sLt_of_sLe {s t u : String} (h1 : sLt s t) (h2 : sLe t u) : sLt s u := by
  unfold sLt at h1 ⊢
  unfold sLe at h2
  cases h : lexLtB s.data u.data with
  | true => rfl
  | false =>
    exfalso
    rcases lexLtB_true_or s.data u.data t.data h1 with h3 | h3
    · rw [h] at h3; exact absurd h3 (by simp)
    · rw [h2] at h3; exact absurd h3 (by simp)

theorem sLe_antisymm {s t : String} (h1 : sLe s t) (h2 : sLe t s) : s = t :=
  string_eq_of_data_eq (lexLtB_eq_of_not _ _ h2 h1)

theorem chaveLex_trans {s1 n1 s2 n2 s3 n3 : String}
    (h1 : chaveLex s1 n1 s2 n2) (h2 : chaveLex s2 n2 s3 n3) : chaveLex s1 n1 s3 n3 := by
  rcases h1 with h1 | ⟨he1, hn1⟩
  · rcases h2 with h2 | ⟨he2, hn2⟩
    · exact Or.inl (sLt_trans h1 h2)
    · exact Or.inl (he2 ▸ h1)
  · rcases h2 with h2 | ⟨he2, hn2⟩
    · exact Or.inl (he1 ▸ h2)
    · exact Or.inr ⟨he1.trans he2, sLe_trans hn1 hn2⟩

theorem chaveLex_total (s1 n1 s2 n2 : String) :
    chaveLex s1 n1 s2 n2 ∨ chaveLex s2 n2 s1 n1 := by
  rcases sLt_or_eq_or_sLt s1 s2 with h | h | h
  · exact Or.inl (Or.inl h)
  · rcases sLe_total n1 n2 with hn | hn
    · exact Or.inl (Or.inr ⟨h, hn⟩)
    · exact Or.inr (Or.inr ⟨h.symm, hn⟩)
  · exact Or.inr (Or.inl h)

instance : IsTotal Resumo geralOrdem where
  total a b := by
    unfold geralOrdem
    rcases a.ATSR with _ | x <;> rcases b.ATSR with _ | y
    · exact chaveLex_total _ _ _ _
    · exact Or.inr trivial
    · exact Or.inl trivial
    · rcases lt_trichotomy x y with h | h | h
      · exact Or.inr (Or.inl h)
      · rcases chaveLex_total a.Subgrupo a.Integrante b.Subgrupo b.Integrante with hc | hc
        · exact Or.inl (Or.inr ⟨h, hc⟩)
        · exact Or.inr (Or.inr ⟨h.symm, hc⟩)
      · exact Or.inl (Or.inl h)

instance : IsTrans Resumo geralOrdem where
  trans a b c hab hbc := by
    unfold geralOrdem at hab hbc ⊢
    rcases ha : a.ATSR with _ | x <;> rcases hb : b.ATSR with _ | y <;>
      rcases hc : c.ATSR with _ | z <;>
      simp only [ha, hb, hc] at hab hbc ⊢
    · exact chaveLex_trans hab hbc
    · rcases hab with h1 | ⟨he1, hk1⟩
      · rcases hbc with h2 | ⟨he2, hk2⟩
        · exact Or.inl (lt_trans h2 h1)
        · exact Or.inl (he2 ▸ h1)
      · rcases hbc with h2 | ⟨he2, hk2⟩
        · exact Or.inl (he1 ▸ h2)
        · exact Or.inr ⟨he1.trans he2, chaveLex_trans hk1 hk2⟩

/-! ### Generic sorting lemmas: stability of insertionSort under a
key-equality filter, and small list helpers -/

theorem filter_orderedInsert {α : Type} (r : α → α → Prop) [DecidableRel r] (p : α → Bool)
    (a : α) (l : List α) (h : ∀ b, p a = true → p b = true → r a b) :
    (List.orderedInsert r a l).filter p =
      if p a then a :: l.filter p else l.filter p := by
  induction l with
  | nil =>
    cases hpa : p a <;> simp [List.orderedInsert, List.filter, hpa]
  | cons b t ih =>
    by_cases hr : r a b
    · rw [List.orderedInsert, if_pos hr]
      cases hpa : p a <;> cases hpb : p b <;>
        simp [List.filter_cons, hpa, hpb]
    · rw [List.orderedInsert, if_neg hr]
      cases hpa : p a
      · rw [List.filter_cons, List.filter_cons]
        simp only [ih, hpa]
        cases hpb : p b <;> simp [hpb]
      · have hpb : p b = false := by
          cases hpb : p b
          · rfl
          · exact absurd (h b hpa hpb) hr
        rw [List.filter_cons, List.filter_cons]
        simp only [ih, hpa, hpb]
        simp

theorem filter_insertionSort {α : Type} (r : α → α → Prop) [DecidableRel r] (p : α → Bool)
    (h : ∀ a b, p a = true → p b = true → r a b) (l : List α) :
    (List.insertionSort r l).filter p = l.filter p := by
  induction l with
  | nil => rfl
  | cons a t ih =>
    simp only [List.insertionSort]
    rw [filter_orderedInsert r p a _ (h a)]
    cases hpa : p a <;> simp [List.filter_cons, hpa, ih]

theorem pairwise_of_forall_right {α : Type} {R : α → α → Prop} :
    ∀ l : List α, (∀ b ∈ l, ∀ a, R a b) → l.Pairwise R := by
  intro l
  induction l with
  | nil => intro _; exact List.Pairwise.nil
  | cons a t ih =>
    intro h
    exact List.Pairwise.cons (fun b hb => h b (List.mem_cons_of_mem a hb) a)
      (ih fun b hb a' => h b (List.mem_cons_of_mem _ hb) a')

theorem length_filter_ne {α : Type} [DecidableEq α] (a : α) :
    ∀ l : List α, l.Nodup → a ∈ l →
      (l.filter (fun x => decide (x ≠ a))).length = l.length - 1 := by
  intro l
  induction l with
  | nil => intro _ h; exact absurd h (List.not_mem_nil a)
  | cons b t ih =>
    intro hnd hmem
    rw [List.nodup_cons] at hnd
    rcases List.mem_cons.mp hmem with he | hmem'
    · subst he
      have hself : t.filter (fun x => decide (x ≠ a)) = t :=
        List.filter_eq_self.mpr (fun x hx => decide_eq_true (fun hxa => hnd.1 (hxa ▸ hx)))
      rw [List.filter_cons, if_neg (by simp), hself, List.length_cons]
      omega
    · have hba : b ≠ a := fun he => hnd.1 (he ▸ hmem')
      have hlen := ih hnd.2 hmem'
      have hpos : 0 < t.length := List.length_pos.mpr (List.ne_nil_of_mem hmem')
      rw [List.filter_cons, if_pos (by exact decide_eq_true hba), List.length_cons, hlen,
        List.length_cons]
      omega

/-! ### Rounding lemmas -/

theorem rhe_intCast (n : ℤ) : rhe (n : ℚ) = n := by
  unfold rhe
  rw [Int.floor_intCast, sub_self, if_pos (by norm_num : (0 : ℚ) < 1/2)]

theorem rhe_natCast (n : ℕ) : rhe (n : ℚ) = n := by
  have h := rhe_intCast (n : ℤ)
  rw [Int.cast_natCast] at h
  exact h

theorem round2_of_mul100_nat (q : ℚ) (k : ℕ) (h : q * 100 = (k : ℚ)) :
    round2 q = (k : ℚ) / 100 := by
  unfold round2
  rw [h, rhe_natCast]
  norm_num

theorem format2_of_mul100_nat (q : ℚ) (k : ℕ) (h : q * 100 = (k : ℚ)) :
    format2 q = toString (k / 100) ++ "." ++
      (if k % 100 < 10 then "0" ++ toString (k % 100) else toString (k % 100)) := by
  unfold format2
  rw [h, rhe_natCast, Int.toNat_natCast]

theorem sum_half (l : List ℚ) (hv : ∀ x ∈ l, ∃ n : ℕ, n ≤ 20 ∧ x = (n : ℚ)/2) :
    ∃ N : ℕ, l.sum = (N : ℚ)/2 := by
  induction l with
  | nil => exact ⟨0, by simp⟩
  | cons a t ih =>
    obtain ⟨n, _, ha⟩ := hv a (List.mem_cons_self a t)
    obtain ⟨N, hN⟩ := ih (fun x hx => hv x (List.mem_cons_of_mem a hx))
    exact ⟨n + N, by rw [List.sum_cons, ha, hN]; push_cast; ring⟩

/-! ### Claim theorems -/

/-- C3: for every complete score set of 5 values, each in steps of 0.5 in
the slider range, the mean written into a submission record equals
round(sum of the 5 scores / 5, 2), and it is serialized as a fixed
2-decimal string (integer part, a dot, exactly two decimal digits). -/
theorem media_escrita_correta (notas : List ℚ) (h5 : notas.length = 5)
    (hv : ∀ x ∈ notas, ∃ n : ℕ, n ≤ 20 ∧ x = (n : ℚ)/2) :
    mediaRegistrada notas = format2 (round2 (notas.sum / 5)) ∧
    ∃ k : ℕ, round2 (notas.sum / 5) = (k : ℚ) / 100 ∧
      mediaRegistrada notas = toString (k / 100) ++ "." ++
        (if k % 100 < 10 then "0" ++ toString (k % 100) else toString (k % 100)) := by
  obtain ⟨N, hN⟩ := sum_half notas hv
  have hmedia : mediaQ notas = notas.sum / 5 := by
    unfold mediaQ
    rw [h5]
    norm_num
  have hm100 : (notas.sum / 5) * 100 = ((10 * N : ℕ) : ℚ) := by
    rw [hN]
    push_cast
    ring
  have hr : round2 (notas.sum / 5) = ((10 * N : ℕ) : ℚ) / 100 :=
    round2_of_mul100_nat _ _ hm100
  have hr100 : round2 (notas.sum / 5) * 100 = ((10 * N : ℕ) : ℚ) := by
    rw [hr, div_mul_cancel₀]
    norm_num
  constructor
  · unfold mediaRegistrada
    rw [hmedia, format2_of_mul100_nat _ _ hm100, format2_of_mul100_nat _ _ hr100]
  · refine ⟨10 * N, hr, ?_⟩
    unfold mediaRegistrada
    rw [hmedia, format2_of_mul100_nat _ _ hm100]

/-- Witness for C3 at the all-default score set of five 5.0 sliders. -/
theorem media_escrita_correta_witness :
    (([5, 5, 5, 5, 5] : List ℚ).length = 5) ∧
    mediaRegistrada [5, 5, 5, 5, 5] =
      format2 (round2 (([5, 5, 5, 5, 5] : List ℚ).sum / 5)) := by
  have hv : ∀ x ∈ ([5, 5, 5, 5, 5] : List ℚ), ∃ n : ℕ, n ≤ 20 ∧ x = (n : ℚ)/2 := by
    intro x hx
    simp only [List.mem_cons, List.not_mem_nil, or_false] at hx
    rcases hx with h | h | h | h | h <;>
      exact ⟨10, by norm_num, by rw [h]; norm_num⟩
  exact ⟨rfl, (media_escrita_correta [5, 5, 5, 5, 5] rfl hv).1⟩

/-- The roster facts behind a successful subgroup lookup: the name is a
member of the resolved subgroup, whose member list has no duplicates and
exactly 4 entries. -/
theorem subgrupo_spec {nome sg : String} (h : get_subgrupo_do_nome nome = some sg) :
    nome ∈ membros sg ∧ (membros sg).Nodup ∧ (membros sg).length = 4 := by
  unfold get_subgrupo_do_nome at h
  rw [Option.map_eq_some'] at h
  obtain ⟨p, hfind, hfst⟩ := h
  have hmem := List.mem_of_find?_eq_some hfind
  have hpn : nome ∈ p.2 :=
    of_decide_eq_true (@List.find?_some _ (fun q => decide (nome ∈ q.2)) p SUBGRUPOS hfind)
  subst hfst
  unfold SUBGRUPOS at hmem
  simp only [List.mem_cons, List.not_mem_nil, or_false] at hmem
  rcases hmem with hp | hp | hp
  · subst hp
    refine ⟨?_, by decide, by decide⟩
    have hm : membros "Subgrupo 01" =
        ["Artur Prazeres", "Filipe Correia", "Thiago Carvalho", "Walter Maia"] := by decide
    rw [hm]
    exact hpn
  · subst hp
    refine ⟨?_, by decide, by decide⟩
    have hm : membros "Subgrupo 02" =
        ["João Carlos", "João Patriota", "João Pessôa", "Mateus Dornellas"] := by decide
    rw [hm]
    exact hpn
  · subst hp
    refine ⟨?_, by decide, by decide⟩
    have hm : membros "Subgrupo 03" =
        ["Antônio Manoel", "Breno Santiago", "Gabriel Ribeiro", "João Henrique"] := by decide
    rw [hm]
    exact hpn

/-- Field values of every row built by the submit loop. -/
theorem linhasEnviadas_fields {avaliador sg ts : String}
    {av : List (String × List ℚ)} {r : Linha}
    (hr : r ∈ linhasEnviadas avaliador sg ts av) :
    r.timestamp = ts ∧ r.avaliador_nome = avaliador ∧ r.avaliador_subgrupo = sg ∧
      r.avaliado_nome ≠ avaliador := by
  unfold linhasEnviadas at hr
  rw [List.mem_map] at hr
  obtain ⟨c, hc, hrc⟩ := hr
  rw [List.mem_filter] at hc
  have hcne : c ≠ avaliador := of_decide_eq_true hc.2
  subst hrc
  exact ⟨rfl, rfl, rfl, hcne⟩

/-- C5: a successful submit by an evaluator appends exactly one record
per colleague, that is |subgroup| - 1 = 3 records, all carrying the one
timestamp taken at submit time and the evaluator's roster subgroup. -/
theorem envio_tres_linhas (store : List Linha) (avaliador ts : String)
    (avaliacoes : List (String × List ℚ)) (sg : String)
    (h : get_subgrupo_do_nome avaliador = some sg)
    (hcomp : ∀ c ∈ (membros sg).filter (fun n => decide (n ≠ avaliador)),
      (avaliacoes.lookup c).isSome = true) :
    enviar store avaliador ts avaliacoes =
      (store ++ linhasEnviadas avaliador sg ts avaliacoes, ResultadoEnvio.sucesso) ∧
    (linhasEnviadas avaliador sg ts avaliacoes).length = (membros sg).length - 1 ∧
    (linhasEnviadas avaliador sg ts avaliacoes).length = 3 ∧
    ∀ r ∈ linhasEnviadas avaliador sg ts avaliacoes,
      r.timestamp = ts ∧ r.avaliador_subgrupo = sg := by
  obtain ⟨hmem, hnd, hlen4⟩ := subgrupo_spec h
  have hfal : ((membros sg).filter (fun n => decide (n ≠ avaliador))).filter
      (fun c => (avaliacoes.lookup c).isNone) = [] := by
    rw [List.filter_eq_nil_iff]
    intro c hc
    have hs := hcomp c hc
    intro hnone
    rw [Option.isNone_iff_eq_none] at hnone
    rw [hnone] at hs
    exact absurd hs (by simp)
  have hlen : (linhasEnviadas avaliador sg ts avaliacoes).length
      = ((membros sg).filter (fun n => decide (n ≠ avaliador))).length := by
    unfold linhasEnviadas
    rw [List.length_map]
  refine ⟨?_, ?_, ?_, ?_⟩
  · unfold enviar
    simp only [h, hfal]
    simp
  · rw [hlen, length_filter_ne avaliador _ hnd hmem]
  · rw [hlen, length_filter_ne avaliador _ hnd hmem, hlen4]
  · intro r hr
    obtain ⟨h1, _, h3, _⟩ := linhasEnviadas_fields hr
    exact ⟨h1, h3⟩

/-- Witness for C5: Artur Prazeres submits complete evaluations of the
three colleagues of Subgrupo 01. -/
theorem envio_tres_linhas_witness :
    get_subgrupo_do_nome "Artur Prazeres" = some "Subgrupo 01" ∧
    (linhasEnviadas "Artur Prazeres" "Subgrupo 01" "2024-05-01T10:00:00"
      [("Filipe Correia", [5, 5, 5, 5, 5]), ("Thiago Carvalho", [5, 5, 5, 5, 5]),
       ("Walter Maia", [5, 5, 5, 5, 5])]).length = 3 :=
  ⟨by decide,
    ((envio_tres_linhas [] "Artur Prazeres" "2024-05-01T10:00:00"
      [("Filipe Correia", [5, 5, 5, 5, 5]), ("Thiago Carvalho", [5, 5, 5, 5, 5]),
       ("Walter Maia", [5, 5, 5, 5, 5])] "Subgrupo 01" (by decide) (by decide)).2).2.1⟩

/-- C6: no record a submit ever appends evaluates the evaluator, and the
evaluation targets are exactly the subgroup members with the evaluator
excluded. -/
theorem sem_autoavaliacao (store : List Linha) (avaliador ts : String)
    (avaliacoes : List (String × List ℚ)) (sg : String)
    (h : get_subgrupo_do_nome avaliador = some sg) :
    (∀ r ∈ (enviar store avaliador ts avaliacoes).1, r ∉ store →
      r.avaliador_nome ≠ r.avaliado_nome) ∧
    (linhasEnviadas avaliador sg ts avaliacoes).map (fun r => r.avaliado_nome) =
      (membros sg).filter (fun n => decide (n ≠ avaliador)) := by
  constructor
  · intro r hr hrs
    have hcases : (enviar store avaliador ts avaliacoes).1 = store ∨
        (enviar store avaliador ts avaliacoes).1 =
          store ++ linhasEnviadas avaliador sg ts avaliacoes := by
      unfold enviar
      simp only [h]
      by_cases hf : (((membros sg).filter (fun n => decide (n ≠ avaliador))).filter
          (fun c => (avaliacoes.lookup c).isNone)).isEmpty = true
      · right
        rw [if_pos hf]
      · left
        rw [if_neg hf]
    rcases hcases with hC | hC
    · rw [hC] at hr
      exact absurd hr hrs
    · rw [hC, List.mem_append] at hr
      rcases hr with hr | hr
      · exact absurd hr hrs
      · obtain ⟨_, h2, _, h4⟩ := linhasEnviadas_fields hr
        rw [h2]
        exact fun he => h4 he.symm
  · unfold linhasEnviadas
    rw [List.map_map]
    exact List.map_id _

/-- Witness for C6 at a concrete submit by Artur Prazeres. -/
theorem sem_autoavaliacao_witness :
    get_subgrupo_do_nome "Artur Prazeres" = some "Subgrupo 01" ∧
    (linhasEnviadas "Artur Prazeres" "Subgrupo 01" "2024-05-01T10:00:00"
        [("Filipe Correia", [5, 5, 5, 5, 5])]).map (fun r => r.avaliado_nome) =
      (membros "Subgrupo 01").filter (fun n => decide (n ≠ "Artur Prazeres")) :=
  ⟨by decide,
    (sem_autoavaliacao [] "Artur Prazeres" "2024-05-01T10:00:00"
      [("Filipe Correia", [5, 5, 5, 5, 5])] "Subgrupo 01" (by decide)).2⟩

/-- C7: when some colleague has no complete score set in the session
state, the submit fails with the incomplete warning and writes nothing:
the store comes back unchanged. -/
theorem envio_incompleto_sem_escrita (store : List Linha) (avaliador ts : String)
    (avaliacoes : List (String × List ℚ)) (sg : String)
    (h : get_subgrupo_do_nome avaliador = some sg)
    (hmiss : ∃ c ∈ (membros sg).filter (fun n => decide (n ≠ avaliador)),
      avaliacoes.lookup c = none) :
    enviar store avaliador ts avaliacoes = (store, ResultadoEnvio.avisoIncompleto) := by
  obtain ⟨c, hc, hnone⟩ := hmiss
  have hfmem : c ∈ ((membros sg).filter (fun n => decide (n ≠ avaliador))).filter
      (fun x => (avaliacoes.lookup x).isNone) := by
    rw [List.mem_filter]
    refine ⟨hc, ?_⟩
    rw [hnone]
    rfl
  have hne : ¬ ((((membros sg).filter (fun n => decide (n ≠ avaliador))).filter
      (fun x => (avaliacoes.lookup x).isNone)).isEmpty = true) := by
    rw [List.isEmpty_iff]
    exact List.ne_nil_of_mem hfmem
  unfold enviar
  simp only [h]
  rw [if_neg hne]

/-- Witness for C7: Artur Prazeres scored only 2 of his 3 colleagues. -/
theorem envio_incompleto_sem_escrita_witness :
    get_subgrupo_do_nome "Artur Prazeres" = some "Subgrupo 01" ∧
    enviar [] "Artur Prazeres" "2024-05-01T10:00:00"
        [("Filipe Correia", [5, 5, 5, 5, 5]), ("Thiago Carvalho", [5, 5, 5, 5, 5])] =
      ([], ResultadoEnvio.avisoIncompleto) :=
  ⟨by decide,
    envio_incompleto_sem_escrita [] "Artur Prazeres" "2024-05-01T10:00:00"
      [("Filipe Correia", [5, 5, 5, 5, 5]), ("Thiago Carvalho", [5, 5, 5, 5, 5])]
      "Subgrupo 01" (by decide)
      ⟨"Walter Maia", by decide, by decide⟩⟩

/-- C8: loading a non-existent store yields the well-defined empty result
None rather than an error, and the organizer view (with the correct
password) renders that case as the informational no-responses message. -/
theorem carregar_inexistente_vazio :
    carregar_dataframe none = none ∧
    pagina_organizador SENHA_ORGANIZADOR none = TelaOrganizador.semRespostas := by
  exact ⟨rfl, by decide⟩

/-- C9: serializing any table with a format other than csv or xlsx
returns the empty byte sequence instead of raising, whatever the two
serialization engines do. -/
theorem formato_nao_suportado (to_csv to_xlsx : List Resumo → List ℕ)
    (df : List Resumo) (formato : String)
    (h1 : formato ≠ "csv") (h2 : formato ≠ "xlsx") :
    baixar_arquivo_bytes to_csv to_xlsx df formato = [] := by
  unfold baixar_arquivo_bytes
  rw [if_neg h1, if_neg h2]

/-- Witness for C9 at the format string json. -/
theorem formato_nao_suportado_witness :
    ("json" ≠ "csv") ∧ ("json" ≠ "xlsx") ∧
    baixar_arquivo_bytes (fun _ => []) (fun _ => []) [] "json" = [] :=
  ⟨by decide, by decide,
    formato_nao_suportado (fun _ => []) (fun _ => []) [] "json" (by decide) (by decide)⟩

/-- C10: consolidar_atrs overwrites the media column of the caller's
table in place, so the table differs from the one passed in whenever some
media cell was non-numeric, while every other column is unchanged. -/
theorem consolidar_muta_entrada (df : List Row) :
    ((∃ r ∈ df, ∃ s, r.media_5_criterios = Cell.texto s) →
      (consolidar_atrs df).1 ≠ df) ∧
    (consolidar_atrs df).1.map
        (fun r => (r.timestamp, r.avaliador_nome, r.avaliador_subgrupo,
          r.avaliado_nome, r.criterios)) =
      df.map (fun r => (r.timestamp, r.avaliador_nome, r.avaliador_subgrupo,
        r.avaliado_nome, r.criterios)) := by
  constructor
  · rintro ⟨r, hr, s, hs⟩ heq
    have heq' : df_apos_consolidar df = df := heq
    obtain ⟨i, hi, hget⟩ := List.mem_iff_getElem.mp hr
    have hq := congrArg (fun l => l[i]?) heq'
    simp only [df_apos_consolidar, List.getElem?_map] at hq
    rw [List.getElem?_eq_getElem hi] at hq
    rw [Option.map_some', Option.some_inj] at hq
    have h3 := congrArg Row.media_5_criterios hq
    simp only at h3
    rw [hget, hs] at h3
    simp [to_numeric] at h3
  · unfold consolidar_atrs df_apos_consolidar
    rw [List.map_map]
    rfl

/-- Witness for C10: a one-row table whose stored mean is unparsable. -/
theorem consolidar_muta_entrada_witness :
    (consolidar_atrs [⟨"t", "X", "S", "A", [], Cell.texto "invalido"⟩]).1 ≠
      [⟨"t", "X", "S", "A", [], Cell.texto "invalido"⟩] :=
  (consolidar_muta_entrada [⟨"t", "X", "S", "A", [], Cell.texto "invalido"⟩]).1
    ⟨⟨"t", "X", "S", "A", [], Cell.texto "invalido"⟩, by simp, "invalido", rfl⟩

/-- C4: the composite score of a person with at least one coercible
stored mean is the arithmetic mean of exactly the coerced values that
survive, rounded to 2 decimals: rows failing coercion are excluded from
both the numerator and the denominator, not treated as zero. -/
theorem consolidacao_exclui_invalidos (df : List Row) (nome : String)
    (hmem : nome ∈ chaves (df_apos_consolidar df))
    (hvals : valoresValidos df nome ≠ []) :
    ({ Subgrupo := subgrupo_avaliado nome, Integrante := nome,
        ATSR := some (round2 ((valoresValidos df nome).sum /
          (valoresValidos df nome).length)) } : Resumo) ∈ consolidar df := by
  unfold consolidar consolidar_atrs
  refine List.mem_map.mpr ⟨nome, hmem, ?_⟩
  have hcond : ¬ ((valoresValidos df nome).isEmpty = true) := by
    rw [List.isEmpty_iff]
    exact hvals
  simp only [mediaGrupo]
  rw [if_neg hcond]
  rfl

/-- Witness for C4: the person evaluated in dfExemploC4 gets the mean of
the two surviving values 7 and 8; the unparsable row is excluded. -/
theorem consolidacao_exclui_invalidos_witness :
    ("Artur Prazeres" ∈ chaves (df_apos_consolidar dfExemploC4)) ∧
    valoresValidos dfExemploC4 "Artur Prazeres" ≠ [] ∧
    ({ Subgrupo := subgrupo_avaliado "Artur Prazeres", Integrante := "Artur Prazeres",
        ATSR := some (round2 ((valoresValidos dfExemploC4 "Artur Prazeres").sum /
          (valoresValidos dfExemploC4 "Artur Prazeres").length)) } : Resumo) ∈
      consolidar dfExemploC4 :=
  ⟨by decide, by decide,
    consolidacao_exclui_invalidos dfExemploC4 "Artur Prazeres" (by decide) (by decide)⟩

/-- ordenaDesc permutes its input. -/
theorem ordenaDesc_perm (l : List Resumo) : (ordenaDesc l).Perm l := by
  unfold ordenaDesc
  refine ((List.perm_insertionSort descATSR _).append
    (List.Perm.refl (l.filter (fun r => r.ATSR.isNone)))).trans ?_
  have h3 : l.filter (fun r => r.ATSR.isNone) = l.filter (fun r => ! r.ATSR.isSome) :=
    List.filter_congr (fun r _ => by cases r.ATSR <;> rfl)
  rw [h3]
  exact List.filter_append_perm _ l

/-- ordenaDesc sorts descending by composite score with NaN rows last. -/
theorem ordenaDesc_pairwise (l : List Resumo) : (ordenaDesc l).Pairwise ordemDesc := by
  unfold ordenaDesc
  rw [List.pairwise_append]
  refine ⟨?_, ?_, ?_⟩
  · have hs : (List.insertionSort descATSR (l.filter (fun r => r.ATSR.isSome))).Pairwise
        descATSR := List.sorted_insertionSort descATSR _
    refine hs.imp_of_mem ?_
    intro a b ha hb hab
    have ha' : a.ATSR.isSome = true :=
      (List.mem_filter.mp ((List.perm_insertionSort descATSR _).mem_iff.mp ha)).2
    have hb' : b.ATSR.isSome = true :=
      (List.mem_filter.mp ((List.perm_insertionSort descATSR _).mem_iff.mp hb)).2
    obtain ⟨x, hx⟩ := Option.isSome_iff_exists.mp ha'
    obtain ⟨y, hy⟩ := Option.isSome_iff_exists.mp hb'
    have hyx : y ≤ x := by
      have h := hab
      unfold descATSR qv at h
      rw [hx, hy] at h
      simpa using h
    unfold ordemDesc
    rw [hx, hy]
    exact hyx
  · apply pairwise_of_forall_right
    intro b hb a
    have hbn : b.ATSR = none := by
      rw [← Option.isNone_iff_eq_none]
      exact (List.mem_filter.mp hb).2
    rcases ha : a.ATSR with _ | x <;> simp [ordemDesc, ha, hbn]
  · intro a _ b hb
    have hbn : b.ATSR = none := by
      rw [← Option.isNone_iff_eq_none]
      exact (List.mem_filter.mp hb).2
    rcases ha : a.ATSR with _ | x <;> simp [ordemDesc, ha, hbn]

/-- ordenaDesc is stable: the rows of every fixed composite score appear
in exactly their input order. -/
theorem ordenaDesc_ties (l : List Resumo) (v : ℚ) :
    (ordenaDesc l).filter (fun r => decide (r.ATSR = some v)) =
      l.filter (fun r => decide (r.ATSR = some v)) := by
  unfold ordenaDesc
  rw [List.filter_append]
  have hnil : (l.filter (fun r => r.ATSR.isNone)).filter
      (fun r => decide (r.ATSR = some v)) = [] := by
    rw [List.filter_eq_nil_iff]
    intro r hr
    have hrn : r.ATSR = none := by
      rw [← Option.isNone_iff_eq_none]
      exact (List.mem_filter.mp hr).2
    simp [hrn]
  rw [hnil, List.append_nil]
  rw [filter_insertionSort descATSR (fun r => decide (r.ATSR = some v))
    (fun a b hpa hpb => by
      have ha := of_decide_eq_true hpa
      have hb := of_decide_eq_true hpb
      unfold descATSR qv
      rw [ha, hb]) _]
  rw [List.filter_filter]
  have hcongr : ∀ r ∈ l, (decide (r.ATSR = some v) && r.ATSR.isSome) =
      decide (r.ATSR = some v) := by
    intro r _
    rcases hr : r.ATSR with _ | x <;> simp [hr]
  rw [List.filter_congr hcongr]

/-- C1: the global ranking orders the aggregated rows descending by
composite score with ties broken ascending by subgroup name then by
person name (geralOrdem), it is a permutation of the aggregated table,
and the displayed index runs 1, 2, ..., n. -/
theorem ranking_geral_ordenado (df : List Row) :
    (rankingGeral (consolidar df)).Pairwise geralOrdem ∧
    (rankingGeral (consolidar df)).Perm (consolidar df) ∧
    (rankingGeralExibido (consolidar df)).map Prod.fst =
      List.range' 1 (consolidar df).length := by
  refine ⟨List.sorted_insertionSort geralOrdem (consolidar df),
    List.perm_insertionSort geralOrdem (consolidar df), ?_⟩
  have hlen : (rankingGeral (consolidar df)).length = (consolidar df).length :=
    (List.perm_insertionSort geralOrdem (consolidar df)).length_eq
  unfold rankingGeralExibido
  rw [List.map_map]
  have h1 : (Prod.fst ∘ fun p : ℕ × Resumo => (p.1 + 1, p.2)) =
      ((fun x => x + 1) ∘ Prod.fst) := rfl
  rw [h1, ← List.map_map, List.enum_map_fst, hlen, List.range'_eq_map_range]
  have h2 : (fun x : ℕ => x + 1) = (fun x : ℕ => 1 + x) := funext fun x => Nat.add_comm x 1
  rw [h2]

/-- C2: the per-subgroup ranking orders the subgroup rows of the
aggregated table descending by composite score (NaN last), it is a
permutation of those rows, and rows with equal composite score keep
their relative order from the input aggregated table: pandas computes a
descending single-key sort by reversing the rows, argsorting them
ascending and reversing the result again, which together with the
stable argsort of small inputs is a stable descending sort, with no
secondary key. -/
theorem ranking_subgrupo_ordenado (df : List Row) (sg : String) :
    (rankingSubgrupo sg (consolidar df)).Pairwise ordemDesc ∧
    (rankingSubgrupo sg (consolidar df)).Perm
      ((consolidar df).filter (fun r => decide (r.Subgrupo = sg))) ∧
    ∀ v : ℚ,
      (rankingSubgrupo sg (consolidar df)).filter (fun r => decide (r.ATSR = some v)) =
        ((consolidar df).filter (fun r => decide (r.Subgrupo = sg))).filter
          (fun r => decide (r.ATSR = some v)) :=
  ⟨ordenaDesc_pairwise _, ordenaDesc_perm _, fun v => ordenaDesc_ties _ v⟩
